import Mathlib

/-!
Verification of the core verdict engine of the therealcarry-verifier-api
repository (`src/index.js`).

The engine classifies uploaded handbag images into semantic views from
filenames and caller labels, assesses quality from byte size, infers a
brand from filename hints, runs an external OCR capability on the first
clear serial-bearing image, applies brand serial-format rules, and
aggregates everything into a three-way verdict.

The embedding below translates each JavaScript function of `src/index.js`
into a Lean definition with the same name.  Machine-level details that the
engine does not depend on (HTTP transport, multipart parsing, the OpenAI
client) are modelled at the boundary: the OCR capability is a parameter
`ocr : List Nat → Option String` (free-form text or unavailability), and
the request boundary is an `Except` value.
-/

namespace TRC

/-- An uploaded image as the engine sees it: `originalname` and `size`
come from multer, `buffer` is the raw content handed to the OCR call. -/
structure File where
  originalname : String
  size : Nat
  buffer : List Nat
deriving DecidableEq, Repr

/-- The external OCR capability `extractSerialTextFromImage`: it receives
the image bytes and returns extracted text or `none` (its own failures
are absorbed and map to `none`, per the `try/catch` in the source). -/
def Ocr : Type := List Nat → Option String

/-- `REQUIRED_VIEWS` from src/index.js. -/
def REQUIRED_VIEWS : List String :=
  ["front", "back", "side", "bottom", "top", "interior", "logo_stamp",
   "hardware", "handle_base", "stitching"]

/-- `ALLOWED_VIEWS` from src/index.js (a `Set` in the source; membership
is all that is used). -/
def ALLOWED_VIEWS : List String :=
  ["front", "back", "side", "bottom", "top", "interior", "logo_stamp",
   "hardware", "handle_base", "stitching", "serial"]

/-- `VIEW_KEYWORDS` from src/index.js: an ordered table of
(view, keyword list) pairs. -/
def VIEW_KEYWORDS : List (String × List String) :=
  [("front", ["front"]),
   ("back", ["back"]),
   ("side", ["side"]),
   ("bottom", ["bottom", "base"]),
   ("top", ["top"]),
   ("interior", ["interior", "inside", "lining"]),
   ("logo_stamp", ["stamp", "logo", "heat", "tag", "label"]),
   ("hardware", ["zip", "zipper", "pull", "lock", "clasp"]),
   ("handle_base", ["handle", "strap", "base"]),
   ("stitching", ["stitch", "seam"])]

/-- `String.prototype.toLowerCase` on the ASCII filenames the engine
sees: lowercase character by character. -/
def lowerAscii (s : String) : String :=
  String.mk (s.data.map Char.toLower)

/-- Collapse each maximal run of whitespace into a single underscore:
the effect of `.replace(/\s+/g, "_")`.  The flag records whether the
previous character was part of a whitespace run. -/
def collapseWs : Bool → List Char → List Char
  | _, [] => []
  | prevWs, c :: cs =>
    if c.isWhitespace then
      (if prevWs then [] else ['_']) ++ collapseWs true cs
    else
      c :: collapseWs false cs

/-- `normalize` from src/index.js: lowercase, whitespace runs to `_`. -/
def normalize (name : String) : String :=
  String.mk (collapseWs false (lowerAscii name).data)

/-- JavaScript `String.prototype.includes`: `needle` occurs as a
contiguous substring of `hay`. -/
def hasSubstr : List Char → List Char → Bool
  | [], needle => needle.isEmpty
  | c :: t, needle => needle.isPrefixOf (c :: t) || hasSubstr t needle

/-- `s.includes(sub)` on strings. -/
def strContains (s sub : String) : Bool :=
  hasSubstr s.data sub.data

/-- `classifyView` from src/index.js: first table entry any of whose
keywords occurs in the normalized filename. -/
def classifyView (filename : String) : Option String :=
  let n := normalize filename
  (VIEW_KEYWORDS.find? (fun e => e.2.any (fun k => strContains n k))).map (fun e => e.1)

/-- `parseLabels` from src/index.js, applied to the entries of the
caller-supplied labels object: entries whose value is not in
`ALLOWED_VIEWS` are dropped.  (The JSON-parsing and non-object guards of
the source return the empty map and are handled at the boundary.) -/
def parseLabels (entries : List (String × String)) : List (String × String) :=
  entries.filter (fun e => ALLOWED_VIEWS.contains e.2)

/-- JavaScript truthiness of a `string | null` value. -/
def strTruthy : Option String → Bool
  | none => false
  | some s => s ≠ ""

/-- The view lookup on line 246 of src/index.js:
`labels[f.originalname] || classifyView(f.originalname)`. -/
def assignView (labels : List (String × String)) (filename : String) : Option String :=
  match labels.lookup filename with
  | some v => if v = "" then classifyView filename else some v
  | none => classifyView filename

/-- `isLikelySerialView` from src/index.js. -/
def isLikelySerialView (view : String) : Bool :=
  view = "serial" || view = "logo_stamp"

/-- Result of `assessSerialImage`. -/
structure Assessment where
  present : Bool
  clear : Bool
deriving DecidableEq, Repr

/-- `assessSerialImage` from src/index.js. -/
def assessSerialImage : Option File → Assessment
  | none => ⟨false, false⟩
  | some f => if f.size < 80000 then ⟨true, false⟩ else ⟨true, true⟩

/-- `inferBrandFromFilename` from src/index.js. -/
def inferBrandFromFilename (name : String) : Option String :=
  let n := lowerAscii name
  if strContains n "lv" || strContains n "louis" then some "louis_vuitton"
  else if strContains n "gucci" then some "gucci"
  else if strContains n "chanel" then some "chanel"
  else if strContains n "prada" then some "prada"
  else none

/-- The effect of `hits[b] = (hits[b] || 0) + 1` on a JavaScript object
represented as an association list in key-insertion order: increment the
existing binding in place, or append a fresh binding with count 1. -/
def addHit : List (String × Nat) → String → List (String × Nat)
  | [], b => [(b, 1)]
  | (k, n) :: rest, b =>
    if k = b then (k, n + 1) :: rest else (k, n) :: addHit rest b

/-- The tally loop of `inferBrand`: per-brand hit counts over the batch,
in first-hit insertion order. -/
def tallyBrands (files : List File) : List (String × Nat) :=
  files.foldl
    (fun acc f =>
      match inferBrandFromFilename f.originalname with
      | some b => addHit acc b
      | none => acc)
    []

/-- Stable insertion by hit count, descending: a new entry goes in front
of the first entry whose count does not exceed it, so entries already in
the list keep their relative order on ties. -/
def insertDesc (e : String × Nat) : List (String × Nat) → List (String × Nat)
  | [] => [e]
  | x :: xs => if x.2 ≤ e.2 then e :: x :: xs else x :: insertDesc e xs

/-- The effect of `entries.sort((a, b) => b[1] - a[1])`: a stable sort of
the tally entries by count, descending.  (JavaScript array sort is
stable; `sortDesc l` inserts each element in front of the later entries
of equal count, which is exactly the stable descending order.) -/
def sortDesc : List (String × Nat) → List (String × Nat)
  | [] => []
  | x :: xs => insertDesc x (sortDesc xs)

/-- `inferBrand` from src/index.js: sort the tally entries by count
descending and take the top entry if its count is at least 2. -/
def inferBrand (files : List File) : Option String :=
  match sortDesc (tallyBrands files) with
  | [] => none
  | e :: _ => if 2 ≤ e.2 then some e.1 else none

/-- `checkLVSerialFormat` from src/index.js: the regular expression
`^[A-Z0-9]{4,6}$`. -/
def checkLVSerialFormat (text : String) : Option String :=
  if 4 ≤ text.length ∧ text.length ≤ 6 ∧
      text.data.all (fun c => ('A' ≤ c ∧ c ≤ 'Z') ∨ c.isDigit) then
    none
  else
    some "LV serial format inconsistent with known date code structures"

/-- `checkGucciSerialFormat` from src/index.js: the regular expression
`^\d{8,14}$`. -/
def checkGucciSerialFormat (text : String) : Option String :=
  if 8 ≤ text.length ∧ text.length ≤ 14 ∧ text.data.all Char.isDigit then
    none
  else
    some "Gucci serial format inconsistent with typical numeric patterns"

/-- `normalizeSerialText` from src/index.js: strip non-alphanumerics,
uppercase the remainder. -/
def normalizeSerialText (text : String) : String :=
  String.mk ((text.data.filter Char.isAlphanum).map Char.toUpper)

/-- `inferredBrand.replace("_", " ")`: JavaScript `replace` with a string
pattern rewrites only the first occurrence. -/
def replaceFirstUnderscore : List Char → List Char
  | [] => []
  | c :: cs => if c = '_' then ' ' :: cs else c :: replaceFirstUnderscore cs

/-- Brand name as displayed inside the plausibility reason. -/
def displayBrand (brand : String) : String :=
  String.mk (replaceFirstUnderscore brand.data)

/-- The mutable per-request state of the `for (const f of files)` loop in
`buildCoreVerdict`, plus `ocrCalls`: the observable trace of invocations
of the external OCR capability, recorded in call order (not a variable of
the source; it instruments the `await extractSerialTextFromImage` call
site). -/
structure LoopState where
  views : List String
  red_flags : List String
  serialObserved : Bool
  serialClear : Bool
  extractedSerial : Option String
  normalizedSerial : Option String
  ocrCalls : List File
deriving Repr

/-- `views.add view` on the JavaScript `Set` (insertion order kept,
duplicates ignored). -/
def addView (views : List String) (v : String) : List String :=
  if views.contains v then views else views ++ [v]

/-- One iteration of the per-file loop of `buildCoreVerdict`
(src/index.js lines 240-264). -/
def processFile (ocr : Ocr) (labels : List (String × String))
    (st : LoopState) (f : File) : LoopState :=
  if f.size < 60000 then
    { st with red_flags := st.red_flags ++ ["Low-quality image: " ++ f.originalname] }
  else
    match assignView labels f.originalname with
    | none => st
    | some view =>
      let st1 := { st with views := addView st.views view }
      if isLikelySerialView view then
        let assessment := assessSerialImage (some f)
        let st2 := { st1 with
          serialObserved := st1.serialObserved || assessment.present,
          serialClear := st1.serialClear || assessment.clear }
        if assessment.clear && !(strTruthy st2.extractedSerial) then
          let raw := ocr f.buffer
          let st3 := { st2 with ocrCalls := st2.ocrCalls ++ [f] }
          match raw with
          | some s =>
            if s = "" then st3
            else { st3 with
              extractedSerial := some s,
              normalizedSerial := some (normalizeSerialText s) }
          | none => st3
        else st2
      else st1

/-- Initial loop state. -/
def initState : LoopState :=
  { views := [], red_flags := [], serialObserved := false, serialClear := false,
    extractedSerial := none, normalizedSerial := none, ocrCalls := [] }

/-- The whole per-file loop of `buildCoreVerdict`. -/
def runLoop (ocr : Ocr) (labels : List (String × String))
    (files : List File) : LoopState :=
  files.foldl (processFile ocr labels) initState

/-- The engine's sole output entity. -/
structure VerdictResult where
  verdict : String
  confidence : Nat
  reasons : List String
  missing_photos : List String
  red_flags : List String
deriving DecidableEq, Repr

/-- The serial-extraction reason appended after the loop
(src/index.js lines 270-276): exactly one of three strings. -/
def serialReason (st : LoopState) : String :=
  if strTruthy st.normalizedSerial then "Serial/date code text extracted from image"
  else if st.serialObserved then "Serial/date code visible but text could not be extracted"
  else "No serial/date code observed in provided images"

/-- The brand serial-format block of `buildCoreVerdict`
(src/index.js lines 278-297): returns the updated
(red_flags, reasons) pair. -/
def brandAdjust (inferredBrand : Option String) (st : LoopState)
    (reasons0 : List String) : List String × List String :=
  match inferredBrand with
  | none => (st.red_flags, reasons0)
  | some brand =>
    if st.serialClear then
      let serialText :=
        match st.normalizedSerial with
        | some s => if s = "" then "UNKNOWN" else s
        | none => "UNKNOWN"
      let issue :=
        if brand = "louis_vuitton" then checkLVSerialFormat serialText
        else if brand = "gucci" then checkGucciSerialFormat serialText
        else none
      match issue with
      | some msg => (st.red_flags ++ [msg], reasons0)
      | none =>
        (st.red_flags,
         reasons0 ++ ["Serial format appears plausible for inferred brand (" ++
                      displayBrand brand ++ ")"])
    else (st.red_flags, reasons0)

/-- The final three-way decision of `buildCoreVerdict`
(src/index.js lines 266-326), taking the loop state and the inferred
brand. -/
def decide_verdict (inferredBrand : Option String) (st : LoopState) : VerdictResult :=
  let missing_photos := REQUIRED_VIEWS.filter (fun r => !(st.views.contains r))
  let rr := brandAdjust inferredBrand st [serialReason st]
  if missing_photos = [] then
    if 3 ≤ rr.1.length then
      { verdict := "Likely Not Authentic", confidence := 65,
        reasons := "Multiple technical inconsistencies detected" :: rr.2,
        missing_photos := [], red_flags := rr.1 }
    else
      { verdict := "Likely Authentic", confidence := 75,
        reasons := "All required views present; no universal red flags" :: rr.2,
        missing_photos := [], red_flags := rr.1 }
  else
    { verdict := "Inconclusive", confidence := 30,
      reasons := "Missing or unclear required views" :: rr.2,
      missing_photos := missing_photos, red_flags := rr.1 }

/-- `buildCoreVerdict` from src/index.js, with the external OCR capability
as a parameter. -/
def buildCoreVerdict (ocr : Ocr) (files : List File)
    (labels : List (String × String)) : VerdictResult :=
  decide_verdict (inferBrand files) (runLoop ocr labels files)

/-- The fallback response of the `catch` arm of the `/verify` route. -/
def serverErrorResult : VerdictResult :=
  { verdict := "Inconclusive", confidence := 0,
    reasons := ["Server error during verification"],
    missing_photos := [], red_flags := [] }

/-- The `/verify` route handler (src/index.js lines 331-345).  A request
that reaches the handler either yields the uploaded files and raw label
entries (`Except.ok`) or raises somewhere inside the `try` block
(`Except.error`, covering any unexpected internal failure); the `catch`
arm maps the latter to the fixed fallback result. -/
def verifyRoute (ocr : Ocr)
    (req : Except Unit (List File × List (String × String))) : VerdictResult :=
  match req with
  | .ok (files, rawLabels) => buildCoreVerdict ocr files (parseLabels rawLabels)
  | .error _ => serverErrorResult

/-- A file qualifies for an OCR attempt in the loop exactly when it passes
the quality gate, carries a serial-bearing view, and is clear. -/
def ocrCandidate (labels : List (String × String)) (f : File) : Bool :=
  if f.size < 60000 then false
  else
    match assignView labels f.originalname with
    | none => false
    | some v => isLikelySerialView v && decide (80000 ≤ f.size)

/-- Per-brand hit count over the whole batch: how many filenames carry
a hint for brand `b`. -/
def brandHits (files : List File) (b : String) : Nat :=
  (files.filterMap (fun f => inferBrandFromFilename f.originalname)).count b

/-- The count a JavaScript read `hits[b] || 0` would see. -/
def countOf (hits : List (String × Nat)) (b : String) : Nat :=
  (hits.lookup b).getD 0

theorem mem_addView (views : List String) (v w : String) :
    w ∈ addView views v ↔ w ∈ views ∨ w = v := by
  unfold addView
  split
  · next h =>
    constructor
    · exact fun hw => Or.inl hw
    · rintro (hw | rfl)
      · exact hw
      · exact List.elem_iff.mp h
  · simp [List.mem_append]

theorem processFile_views_of_small (ocr : Ocr) (labels : List (String × String))
    (st : LoopState) (f : File) (h : f.size < 60000) :
    (processFile ocr labels st f).views = st.views := by
  simp [processFile, h]

theorem processFile_views_of_noview (ocr : Ocr) (labels : List (String × String))
    (st : LoopState) (f : File) (h1 : ¬ f.size < 60000)
    (h2 : assignView labels f.originalname = none) :
    (processFile ocr labels st f).views = st.views := by
  simp [processFile, h1, h2]

theorem processFile_views_of_view (ocr : Ocr) (labels : List (String × String))
    (st : LoopState) (f : File) (v : String) (h1 : ¬ f.size < 60000)
    (h2 : assignView labels f.originalname = some v) :
    (processFile ocr labels st f).views = addView st.views v := by
  simp only [processFile, if_neg h1, h2]
  split
  · split
    · split <;> (try split) <;> rfl
    · rfl
  · rfl

theorem foldl_views_mem (ocr : Ocr) (labels : List (String × String))
    (files : List File) (st : LoopState) (v : String) :
    v ∈ (files.foldl (processFile ocr labels) st).views ↔
      v ∈ st.views ∨
        ∃ f ∈ files, ¬ f.size < 60000 ∧ assignView labels f.originalname = some v := by
  induction files generalizing st with
  | nil => simp
  | cons f rest ih =>
    rw [List.foldl_cons, ih]
    by_cases hs : f.size < 60000
    · rw [processFile_views_of_small ocr labels st f hs]
      constructor
      · rintro (h | ⟨g, hg, hgs, hga⟩)
        · exact Or.inl h
        · exact Or.inr ⟨g, List.mem_cons_of_mem f hg, hgs, hga⟩
      · rintro (h | ⟨g, hg, hgs, hga⟩)
        · exact Or.inl h
        · rcases List.mem_cons.mp hg with rfl | hg'
          · exact absurd hs hgs
          · exact Or.inr ⟨g, hg', hgs, hga⟩
    · cases ha : assignView labels f.originalname with
      | none =>
        rw [processFile_views_of_noview ocr labels st f hs ha]
        constructor
        · rintro (h | ⟨g, hg, hgs, hga⟩)
          · exact Or.inl h
          · exact Or.inr ⟨g, List.mem_cons_of_mem f hg, hgs, hga⟩
        · rintro (h | ⟨g, hg, hgs, hga⟩)
          · exact Or.inl h
          · rcases List.mem_cons.mp hg with rfl | hg'
            · rw [hga] at ha
              cases ha
            · exact Or.inr ⟨g, hg', hgs, hga⟩
      | some w =>
        rw [processFile_views_of_view ocr labels st f w hs ha, mem_addView]
        constructor
        · rintro ((h | rfl) | ⟨g, hg, hgs, hga⟩)
          · exact Or.inl h
          · exact Or.inr ⟨f, List.mem_cons_self f rest, hs, ha⟩
          · exact Or.inr ⟨g, List.mem_cons_of_mem f hg, hgs, hga⟩
        · rintro (h | ⟨g, hg, hgs, hga⟩)
          · exact Or.inl (Or.inl h)
          · rcases List.mem_cons.mp hg with rfl | hg'
            · rw [hga] at ha
              cases ha
              exact Or.inl (Or.inr rfl)
            · exact Or.inr ⟨g, hg', hgs, hga⟩

/-- Membership characterization of the views-seen set of a whole run. -/
theorem runLoop_views_mem (ocr : Ocr) (labels : List (String × String))
    (files : List File) (v : String) :
    v ∈ (runLoop ocr labels files).views ↔
      ∃ f ∈ files, ¬ f.size < 60000 ∧ assignView labels f.originalname = some v := by
  rw [runLoop, foldl_views_mem]
  simp [initState]

theorem processFile_red_flags_eq (ocr : Ocr) (labels : List (String × String))
    (st : LoopState) (f : File) :
    (processFile ocr labels st f).red_flags =
      if f.size < 60000 then st.red_flags ++ ["Low-quality image: " ++ f.originalname]
      else st.red_flags := by
  unfold processFile
  split
  · rfl
  · split
    · rfl
    · dsimp only
      split
      · split
        · split <;> (try split) <;> rfl
        · rfl
      · rfl

theorem foldl_red_flags (ocr : Ocr) (labels : List (String × String))
    (files : List File) (st : LoopState) :
    (files.foldl (processFile ocr labels) st).red_flags =
      st.red_flags ++
        (files.filter (fun f => decide (f.size < 60000))).map
          (fun f => "Low-quality image: " ++ f.originalname) := by
  induction files generalizing st with
  | nil => simp
  | cons f rest ih =>
    rw [List.foldl_cons, ih, processFile_red_flags_eq]
    by_cases hs : f.size < 60000 <;> simp [hs]

/-- The red flags accumulated by the loop are exactly the low-quality
flags of the undersized files, in batch order. -/
theorem runLoop_red_flags (ocr : Ocr) (labels : List (String × String))
    (files : List File) :
    (runLoop ocr labels files).red_flags =
      (files.filter (fun f => decide (f.size < 60000))).map
        (fun f => "Low-quality image: " ++ f.originalname) := by
  rw [runLoop, foldl_red_flags]
  simp [initState]

theorem assessSerialImage_clear (f : File) :
    (assessSerialImage (some f)).clear = decide (80000 ≤ f.size) := by
  by_cases h : f.size < 80000
  · simp [assessSerialImage, h, Nat.not_le.mpr h]
  · simp [assessSerialImage, h, Nat.le_of_not_lt h]

theorem processFile_ocrCalls_eq (ocr : Ocr) (labels : List (String × String))
    (st : LoopState) (f : File) :
    (processFile ocr labels st f).ocrCalls =
      if ocrCandidate labels f && !(strTruthy st.extractedSerial) then
        st.ocrCalls ++ [f]
      else st.ocrCalls := by
  by_cases hs : f.size < 60000
  · simp [processFile, ocrCandidate, hs]
  · cases ha : assignView labels f.originalname with
    | none => simp [processFile, ocrCandidate, hs, ha]
    | some v =>
      simp only [processFile, if_neg hs, ha]
      by_cases hser : isLikelySerialView v = true
      · rw [if_pos hser]
        by_cases hcall :
            ((assessSerialImage (some f)).clear && !strTruthy st.extractedSerial) = true
        · rw [if_pos hcall]
          have hrhs : (ocrCandidate labels f && !strTruthy st.extractedSerial) = true := by
            have h1 := hcall
            rw [assessSerialImage_clear] at h1
            simp only [Bool.and_eq_true] at h1
            unfold ocrCandidate
            rw [if_neg hs, ha]
            simp only [Bool.and_eq_true]
            exact ⟨⟨hser, h1.1⟩, h1.2⟩
          rw [if_pos hrhs]
          cases ocr f.buffer with
          | none => rfl
          | some s =>
            dsimp only
            split <;> rfl
        · rw [if_neg hcall]
          have hrhs : ¬ (ocrCandidate labels f && !strTruthy st.extractedSerial) = true := by
            intro hcc
            apply hcall
            unfold ocrCandidate at hcc
            rw [if_neg hs, ha] at hcc
            simp only [Bool.and_eq_true] at hcc
            rw [assessSerialImage_clear]
            simp only [Bool.and_eq_true]
            exact ⟨hcc.1.2, hcc.2⟩
          rw [if_neg hrhs]
      · rw [if_neg hser]
        have hrhs : ¬ (ocrCandidate labels f && !strTruthy st.extractedSerial) = true := by
          unfold ocrCandidate
          rw [if_neg hs, ha]
          simp [hser]
        rw [if_neg hrhs]

theorem processFile_extracted_of_not_cand (ocr : Ocr)
    (labels : List (String × String)) (st : LoopState) (f : File)
    (h : ocrCandidate labels f = false) :
    (processFile ocr labels st f).extractedSerial = st.extractedSerial := by
  unfold ocrCandidate at h
  by_cases hs : f.size < 60000
  · simp [processFile, hs]
  · rw [if_neg hs] at h
    cases ha : assignView labels f.originalname with
    | none => simp [processFile, hs, ha]
    | some v =>
      rw [ha] at h
      dsimp only at h
      simp only [processFile, if_neg hs, ha]
      by_cases hser : isLikelySerialView v = true
      · rw [if_pos hser]
        rw [hser] at h
        simp only [Bool.true_and] at h
        rw [if_neg (by rw [assessSerialImage_clear, h]; simp)]
      · rw [if_neg hser]

theorem processFile_extracted_of_truthy (ocr : Ocr)
    (labels : List (String × String)) (st : LoopState) (f : File)
    (h : strTruthy st.extractedSerial = true) :
    (processFile ocr labels st f).extractedSerial = st.extractedSerial := by
  unfold processFile
  split
  · rfl
  · split
    · rfl
    · dsimp only
      split
      · rw [h]
        simp only [Bool.not_true, Bool.and_false, Bool.false_eq_true, if_false]
      · rfl

theorem processFile_extracted_of_call (ocr : Ocr)
    (labels : List (String × String)) (st : LoopState) (f : File)
    (hc : ocrCandidate labels f = true)
    (hst : strTruthy st.extractedSerial = false)
    (hraw : strTruthy (ocr f.buffer) = true) :
    strTruthy (processFile ocr labels st f).extractedSerial = true := by
  unfold ocrCandidate at hc
  by_cases hs : f.size < 60000
  · rw [if_pos hs] at hc
    cases hc
  · rw [if_neg hs] at hc
    cases ha : assignView labels f.originalname with
    | none =>
      rw [ha] at hc
      cases hc
    | some v =>
      rw [ha] at hc
      simp only [Bool.and_eq_true, decide_eq_true_eq] at hc
      obtain ⟨hser, h80⟩ := hc
      simp only [processFile, if_neg hs, ha]
      rw [if_pos hser]
      rw [if_pos (by rw [assessSerialImage_clear, hst]; simp [h80])]
      cases hr : ocr f.buffer with
      | none =>
        rw [hr] at hraw
        simp [strTruthy] at hraw
      | some s =>
        rw [hr] at hraw
        dsimp only
        simp only [strTruthy, ne_eq, decide_eq_true_eq] at hraw
        rw [if_neg hraw]
        simp [strTruthy, hraw]

theorem foldl_ocrCalls_of_truthy (ocr : Ocr) (labels : List (String × String))
    (files : List File) (st : LoopState)
    (h : strTruthy st.extractedSerial = true) :
    (files.foldl (processFile ocr labels) st).ocrCalls = st.ocrCalls := by
  induction files generalizing st with
  | nil => rfl
  | cons f rest ih =>
    rw [List.foldl_cons]
    have h2 : strTruthy (processFile ocr labels st f).extractedSerial = true := by
      rw [processFile_extracted_of_truthy ocr labels st f h]
      exact h
    rw [ih _ h2, processFile_ocrCalls_eq, h]
    simp

theorem foldl_ocrCalls_sub (ocr : Ocr) (labels : List (String × String))
    (files : List File) (st : LoopState) (g : File)
    (hg : g ∈ (files.foldl (processFile ocr labels) st).ocrCalls) :
    g ∈ st.ocrCalls ∨ (g ∈ files ∧ ocrCandidate labels g = true) := by
  induction files generalizing st with
  | nil => exact Or.inl hg
  | cons f rest ih =>
    rw [List.foldl_cons] at hg
    rcases ih _ hg with hmem | ⟨hf, hc⟩
    · rw [processFile_ocrCalls_eq] at hmem
      split at hmem
      · next hcond =>
        rcases List.mem_append.mp hmem with hm | hm
        · exact Or.inl hm
        · obtain heq := List.mem_singleton.mp hm
          subst heq
          have hcand := hcond
          simp only [Bool.and_eq_true] at hcand
          exact Or.inr ⟨List.mem_cons_self _ _, hcand.1⟩
      · exact Or.inl hmem
    · exact Or.inr ⟨List.mem_cons_of_mem f hf, hc⟩

theorem foldl_ocrCalls_truthy_ocr (ocr : Ocr) (labels : List (String × String))
    (files : List File) (st : LoopState)
    (hall : ∀ f ∈ files, strTruthy (ocr f.buffer) = true)
    (hst : strTruthy st.extractedSerial = false) :
    (files.foldl (processFile ocr labels) st).ocrCalls =
      st.ocrCalls ++ (files.find? (ocrCandidate labels)).toList := by
  induction files generalizing st with
  | nil => simp
  | cons f rest ih =>
    rw [List.foldl_cons]
    cases hc : ocrCandidate labels f with
    | false =>
      have hocr : (processFile ocr labels st f).ocrCalls = st.ocrCalls := by
        rw [processFile_ocrCalls_eq, hc]
        simp
      have hext : strTruthy (processFile ocr labels st f).extractedSerial = false := by
        rw [processFile_extracted_of_not_cand ocr labels st f hc]
        exact hst
      rw [ih _ (fun g hgr => hall g (List.mem_cons_of_mem f hgr)) hext, hocr,
        List.find?_cons_of_neg _ (by simp [hc])]
    | true =>
      have hocr : (processFile ocr labels st f).ocrCalls = st.ocrCalls ++ [f] := by
        rw [processFile_ocrCalls_eq, hc, hst]
        simp
      have htr : strTruthy (processFile ocr labels st f).extractedSerial = true :=
        processFile_extracted_of_call ocr labels st f hc hst
          (hall f (List.mem_cons_self f rest))
      rw [foldl_ocrCalls_of_truthy ocr labels rest _ htr, hocr,
        List.find?_cons_of_pos _ hc]
      rfl

theorem lookup_addHit_same (hits : List (String × Nat)) (b : String) :
    (addHit hits b).lookup b = some (countOf hits b + 1) := by
  induction hits with
  | nil => simp [addHit, List.lookup_cons, countOf]
  | cons e rest ih =>
    obtain ⟨k, n⟩ := e
    by_cases hk : k = b
    · subst hk
      simp [addHit, List.lookup_cons, countOf]
    · have hbk : (b == k) = false := beq_eq_false_iff_ne.mpr (Ne.symm hk)
      simp [addHit, hk, List.lookup_cons, hbk, countOf, ih]

theorem lookup_addHit_other (hits : List (String × Nat)) (b c : String)
    (hne : c ≠ b) :
    (addHit hits b).lookup c = hits.lookup c := by
  induction hits with
  | nil => simp [addHit, List.lookup_cons, beq_eq_false_iff_ne.mpr hne]
  | cons e rest ih =>
    obtain ⟨k, n⟩ := e
    by_cases hk : k = b
    · subst hk
      have hck : (c == k) = false := beq_eq_false_iff_ne.mpr hne
      simp [addHit, List.lookup_cons, hck]
    · cases hck : (c == k) with
      | true => simp [addHit, hk, List.lookup_cons, hck]
      | false => simp [addHit, hk, List.lookup_cons, hck, ih]

theorem mem_keys_addHit (hits : List (String × Nat)) (b c : String)
    (h : c ∈ (addHit hits b).map Prod.fst) :
    c ∈ hits.map Prod.fst ∨ c = b := by
  induction hits with
  | nil =>
    simp only [addHit, List.map_cons, List.map_nil, List.mem_singleton] at h
    exact Or.inr h
  | cons e rest ih =>
    obtain ⟨k, n⟩ := e
    by_cases hk : k = b
    · subst hk
      unfold addHit at h
      rw [if_pos rfl] at h
      simp only [List.map_cons, List.mem_cons] at h
      rcases h with rfl | h2
      · exact Or.inr rfl
      · exact Or.inl (by rw [List.map_cons]; exact List.mem_cons_of_mem _ h2)
    · simp only [addHit, if_neg hk, List.map_cons, List.mem_cons] at h
      rcases h with rfl | h2
      · exact Or.inl (List.mem_cons_self _ _)
      · rcases ih h2 with h3 | h3
        · exact Or.inl (List.mem_cons_of_mem _ h3)
        · exact Or.inr h3

theorem keys_nodup_addHit (hits : List (String × Nat)) (b : String)
    (h : (hits.map Prod.fst).Nodup) :
    ((addHit hits b).map Prod.fst).Nodup := by
  induction hits with
  | nil => simp [addHit]
  | cons e rest ih =>
    obtain ⟨k, n⟩ := e
    simp only [List.map_cons, List.nodup_cons] at h
    by_cases hk : k = b
    · subst hk
      unfold addHit
      rw [if_pos rfl]
      simp only [List.map_cons, List.nodup_cons]
      exact h
    · simp only [addHit, if_neg hk, List.map_cons, List.nodup_cons]
      refine ⟨fun hmem => ?_, ih h.2⟩
      rcases mem_keys_addHit rest b k hmem with h3 | h3
      · exact h.1 h3
      · exact hk h3

theorem lookup_of_mem_nodup (l : List (String × Nat)) (b : String) (n : Nat)
    (hnd : (l.map Prod.fst).Nodup) (hmem : (b, n) ∈ l) :
    l.lookup b = some n := by
  induction l with
  | nil => cases hmem
  | cons e rest ih =>
    obtain ⟨k, m⟩ := e
    simp only [List.map_cons, List.nodup_cons] at hnd
    rcases List.mem_cons.mp hmem with heq | hmem2
    · obtain ⟨rfl, rfl⟩ := Prod.mk.injEq .. ▸ heq
      injection heq with h1 h2
      simp [List.lookup_cons]
    · by_cases hk : b = k
      · subst hk
        exact absurd (List.mem_map.mpr ⟨(b, n), hmem2, rfl⟩) hnd.1
      · have hbk : (b == k) = false := beq_eq_false_iff_ne.mpr hk
        simp [List.lookup_cons, hbk, ih hnd.2 hmem2]

theorem mem_of_lookup_eq_some (l : List (String × Nat)) (b : String) (n : Nat)
    (h : l.lookup b = some n) :
    (b, n) ∈ l := by
  induction l with
  | nil => cases h
  | cons e rest ih =>
    obtain ⟨k, m⟩ := e
    rw [List.lookup_cons] at h
    cases hbk : (b == k) with
    | true =>
      rw [hbk] at h
      injection h with h2
      subst h2
      rcases beq_iff_eq.mp hbk with rfl
      exact List.mem_cons_self _ _
    | false =>
      rw [hbk] at h
      exact List.mem_cons_of_mem _ (ih h)

theorem countOf_addHit_same (hits : List (String × Nat)) (b : String) :
    countOf (addHit hits b) b = countOf hits b + 1 := by
  unfold countOf
  rw [lookup_addHit_same]
  rfl

theorem countOf_addHit_other (hits : List (String × Nat)) (b c : String)
    (hne : c ≠ b) :
    countOf (addHit hits b) c = countOf hits c := by
  unfold countOf
  rw [lookup_addHit_other hits b c hne]

theorem countOf_foldl_tally (files : List File) (acc : List (String × Nat))
    (b : String) :
    countOf
        (files.foldl
          (fun acc f =>
            match inferBrandFromFilename f.originalname with
            | some b => addHit acc b
            | none => acc)
          acc)
        b
      = countOf acc b + brandHits files b := by
  induction files generalizing acc with
  | nil => simp [brandHits]
  | cons f rest ih =>
    rw [List.foldl_cons]
    cases hbf : inferBrandFromFilename f.originalname with
    | none =>
      rw [ih]
      simp [brandHits, List.filterMap_cons, hbf]
    | some b0 =>
      rw [ih]
      by_cases hb : b0 = b
      · subst hb
        rw [countOf_addHit_same]
        simp only [brandHits, List.filterMap_cons, hbf, List.count_cons_self]
        omega
      · rw [countOf_addHit_other acc b0 b (Ne.symm hb)]
        have hbb : (b0 == b) = false := beq_eq_false_iff_ne.mpr hb
        simp [brandHits, List.filterMap_cons, hbf, List.count_cons, hbb]

/-- The tally read through `countOf` is exactly the per-brand hit count. -/
theorem countOf_tallyBrands (files : List File) (b : String) :
    countOf (tallyBrands files) b = brandHits files b := by
  rw [tallyBrands, countOf_foldl_tally]
  simp [countOf]

theorem tallyBrands_keys_nodup (files : List File) :
    ((tallyBrands files).map Prod.fst).Nodup := by
  rw [tallyBrands]
  have h : ∀ acc : List (String × Nat), (acc.map Prod.fst).Nodup →
      ((files.foldl
          (fun acc f =>
            match inferBrandFromFilename f.originalname with
            | some b => addHit acc b
            | none => acc)
          acc).map Prod.fst).Nodup := by
    induction files with
    | nil => exact fun acc h => h
    | cons f rest ih =>
      intro acc hacc
      rw [List.foldl_cons]
      cases hbf : inferBrandFromFilename f.originalname with
      | none => exact ih acc hacc
      | some b0 => exact ih _ (keys_nodup_addHit acc b0 hacc)
  exact h [] (by simp)

/-- An entry of the tally records exactly its key's hit count. -/
theorem tally_entry_count (files : List File) (e : String × Nat)
    (h : e ∈ tallyBrands files) :
    e.2 = brandHits files e.1 := by
  have h1 : (tallyBrands files).lookup e.1 = some e.2 :=
    lookup_of_mem_nodup _ e.1 e.2 (tallyBrands_keys_nodup files)
      (by obtain ⟨k, n⟩ := e; exact h)
  have h2 := countOf_tallyBrands files e.1
  rw [countOf, h1] at h2
  simp only [Option.getD] at h2
  exact h2

theorem mem_insertDesc (e y : String × Nat) (l : List (String × Nat)) :
    y ∈ insertDesc e l ↔ y = e ∨ y ∈ l := by
  induction l with
  | nil => simp [insertDesc]
  | cons x xs ih =>
    unfold insertDesc
    split
    · simp [List.mem_cons]
    · simp only [List.mem_cons, ih]
      tauto

theorem pairwise_insertDesc (e : String × Nat) (l : List (String × Nat))
    (h : l.Pairwise (fun a b => b.2 ≤ a.2)) :
    (insertDesc e l).Pairwise (fun a b => b.2 ≤ a.2) := by
  induction l with
  | nil => simp [insertDesc]
  | cons x xs ih =>
    rw [List.pairwise_cons] at h
    unfold insertDesc
    split
    · next hxe =>
      rw [List.pairwise_cons]
      refine ⟨?_, List.pairwise_cons.mpr h⟩
      intro y hy
      rcases List.mem_cons.mp hy with rfl | hy2
      · exact hxe
      · exact Nat.le_trans (h.1 y hy2) hxe
    · next hxe =>
      rw [List.pairwise_cons]
      refine ⟨?_, ih h.2⟩
      intro y hy
      rcases (mem_insertDesc e y xs).mp hy with rfl | hy2
      · exact Nat.le_of_lt (Nat.lt_of_not_le hxe)
      · exact h.1 y hy2

theorem mem_sortDesc (y : String × Nat) (l : List (String × Nat)) :
    y ∈ sortDesc l ↔ y ∈ l := by
  induction l with
  | nil => simp [sortDesc]
  | cons x xs ih =>
    unfold sortDesc
    rw [mem_insertDesc, ih, List.mem_cons]

theorem pairwise_sortDesc (l : List (String × Nat)) :
    (sortDesc l).Pairwise (fun a b => b.2 ≤ a.2) := by
  induction l with
  | nil => simp [sortDesc]
  | cons x xs ih => exact pairwise_insertDesc x (sortDesc xs) ih

/-- The head of the sorted tally dominates every per-brand hit count. -/
theorem sorted_head_max (files : List File) (e : String × Nat)
    (rest : List (String × Nat))
    (hsort : sortDesc (tallyBrands files) = e :: rest)
    (b : String) :
    brandHits files b ≤ e.2 := by
  rcases hn : (tallyBrands files).lookup b with _ | n
  · have hz := countOf_tallyBrands files b
    rw [countOf, hn] at hz
    simp only [Option.getD] at hz
    omega
  · have hmem : (b, n) ∈ tallyBrands files := mem_of_lookup_eq_some _ b n hn
    have hcnt : brandHits files b = n := by
      have := countOf_tallyBrands files b
      rw [countOf, hn] at this
      exact this.symm
    have hmem2 : (b, n) ∈ e :: rest := by
      rw [← hsort]
      exact (mem_sortDesc _ _).mpr hmem
    rcases List.mem_cons.mp hmem2 with heq | htail
    · rw [hcnt, ← heq]
    · have hpair := pairwise_sortDesc (tallyBrands files)
      rw [hsort] at hpair
      have := (List.pairwise_cons.mp hpair).1 (b, n) htail
      omega

/-- The head of the sorted tally is itself a tally entry. -/
theorem sorted_head_mem (files : List File) (e : String × Nat)
    (rest : List (String × Nat))
    (hsort : sortDesc (tallyBrands files) = e :: rest) :
    e ∈ tallyBrands files := by
  rw [← mem_sortDesc, hsort]
  exact List.mem_cons_self _ _

theorem append_prefix_ne (p s q : String) (hp : 2 ≤ p.data.length)
    (h : p.data.take 2 ≠ q.data.take 2) : p ++ s ≠ q := by
  intro he
  apply h
  have hd := congrArg String.data he
  rw [String.data_append] at hd
  calc p.data.take 2 = (p.data ++ s.data).take 2 :=
        (List.take_append_of_le_length hp).symm
    _ = q.data.take 2 := by rw [hd]

theorem append_prefix_ne2 (p s q t : String) (hp : 2 ≤ p.data.length)
    (hq : 2 ≤ q.data.length) (h : p.data.take 2 ≠ q.data.take 2) :
    p ++ s ≠ q ++ t := by
  intro he
  apply h
  have hd := congrArg String.data he
  rw [String.data_append, String.data_append] at hd
  calc p.data.take 2 = (p.data ++ s.data).take 2 :=
        (List.take_append_of_le_length hp).symm
    _ = (q.data ++ t.data).take 2 := by rw [hd]
    _ = q.data.take 2 := List.take_append_of_le_length hq

theorem lookup_eq_none_of_key_not_mem {β : Type} (l : List (String × β))
    (a : String) (h : a ∉ l.map Prod.fst) : l.lookup a = none := by
  induction l with
  | nil => rfl
  | cons e rest ih =>
    obtain ⟨k, w⟩ := e
    simp only [List.map_cons, List.mem_cons, not_or] at h
    have hak : (a == k) = false := beq_eq_false_iff_ne.mpr h.1
    simp [List.lookup_cons, hak, ih h.2]

/-- Looking a filename up in the cleaned label map: a valid binding
survives `parseLabels` unchanged, an invalid one is gone. -/
theorem lookup_parseLabels (raw : List (String × String)) (fname v : String)
    (hnd : (raw.map Prod.fst).Nodup) (hb : raw.lookup fname = some v) :
    (parseLabels raw).lookup fname =
      if ALLOWED_VIEWS.contains v then some v else none := by
  induction raw with
  | nil => cases hb
  | cons e rest ih =>
    obtain ⟨k, w⟩ := e
    simp only [List.map_cons, List.nodup_cons] at hnd
    rw [List.lookup_cons] at hb
    by_cases hk : fname = k
    · subst hk
      rw [show (fname == fname) = true from beq_self_eq_true fname] at hb
      injection hb with hwv
      subst hwv
      unfold parseLabels
      rw [List.filter_cons]
      cases hal : ALLOWED_VIEWS.contains w with
      | true =>
        rw [if_pos (by simp [hal])]
        simp [List.lookup_cons]
      | false =>
        rw [if_neg (by simp [hal])]
        rw [show (rest.filter (fun e => ALLOWED_VIEWS.contains e.2)).lookup fname
            = none from lookup_eq_none_of_key_not_mem _ fname (by
          intro hmem
          apply hnd.1
          rcases List.mem_map.mp hmem with ⟨e2, he2, rfl⟩
          exact List.mem_map.mpr ⟨e2, List.mem_of_mem_filter he2, rfl⟩)]
        simp
    · have hbk : (fname == k) = false := beq_eq_false_iff_ne.mpr hk
      rw [hbk] at hb
      have ihv := ih hnd.2 hb
      unfold parseLabels at ihv ⊢
      rw [List.filter_cons]
      cases hal : ALLOWED_VIEWS.contains w with
      | true =>
        rw [if_pos (by simp [hal])]
        simp only [List.lookup_cons, hbk]
        exact ihv
      | false =>
        rw [if_neg (by simp [hal])]
        exact ihv

theorem decide_verdict_red_flags (ib : Option String) (st : LoopState) :
    (decide_verdict ib st).red_flags = (brandAdjust ib st [serialReason st]).1 := by
  unfold decide_verdict
  dsimp only
  split
  · split <;> rfl
  · rfl

theorem decide_verdict_verdict_mem (ib : Option String) (st : LoopState) :
    (decide_verdict ib st).verdict ∈
      (["Inconclusive", "Likely Not Authentic", "Likely Authentic"] : List String) := by
  unfold decide_verdict
  dsimp only
  split
  · split <;> simp
  · simp

theorem decide_verdict_confidence_mem (ib : Option String) (st : LoopState) :
    (decide_verdict ib st).confidence ∈ ([30, 65, 75] : List Nat) := by
  unfold decide_verdict
  dsimp only
  split
  · split <;> simp
  · simp

theorem brandAdjust_flags_cases (ib : Option String) (st : LoopState)
    (r : List String) :
    (brandAdjust ib st r).1 = st.red_flags ∨
      (brandAdjust ib st r).1 =
        st.red_flags ++ ["LV serial format inconsistent with known date code structures"] ∨
      (brandAdjust ib st r).1 =
        st.red_flags ++ ["Gucci serial format inconsistent with typical numeric patterns"] := by
  unfold brandAdjust
  cases ib with
  | none => exact Or.inl rfl
  | some brand =>
    dsimp only
    split
    · split
      · next msg heq =>
        split at heq
        · unfold checkLVSerialFormat at heq
          split at heq
          · cases heq
          · injection heq with hm
            subst hm
            exact Or.inr (Or.inl rfl)
        · split at heq
          · unfold checkGucciSerialFormat at heq
            split at heq
            · cases heq
            · injection heq with hm
              subst hm
              exact Or.inr (Or.inr rfl)
          · cases heq
      · exact Or.inl rfl
    · exact Or.inl rfl

theorem missing_filter_empty_iff (st : LoopState) :
    REQUIRED_VIEWS.filter (fun r => !(st.views.contains r)) = [] ↔
      ∀ r ∈ REQUIRED_VIEWS, r ∈ st.views := by
  rw [List.filter_eq_nil_iff]
  constructor
  · intro h r hr
    have := h r hr
    simp only [Bool.not_eq_true', Bool.not_eq_false] at this
    exact List.elem_iff.mp this
  · intro h r hr
    simp only [Bool.not_eq_true', Bool.not_eq_false]
    exact List.elem_iff.mpr (h r hr)

theorem mem_missing_filter (st : LoopState) (r : String) :
    r ∈ REQUIRED_VIEWS.filter (fun v => !(st.views.contains v)) ↔
      r ∈ REQUIRED_VIEWS ∧ r ∉ st.views := by
  rw [List.mem_filter]
  constructor
  · rintro ⟨h1, h2⟩
    simp only [Bool.not_eq_true'] at h2
    refine ⟨h1, fun hc => ?_⟩
    have h3 : st.views.contains r = true := List.elem_iff.mpr hc
    rw [h3] at h2
    cases h2
  · rintro ⟨h1, h2⟩
    refine ⟨h1, ?_⟩
    simp only [Bool.not_eq_true']
    cases hcon : st.views.contains r with
    | true => exact absurd (List.elem_iff.mp hcon) h2
    | false => rfl

theorem decide_verdict_of_missing (ib : Option String) (st : LoopState)
    (h : REQUIRED_VIEWS.filter (fun r => !(st.views.contains r)) ≠ []) :
    decide_verdict ib st =
      { verdict := "Inconclusive", confidence := 30,
        reasons := "Missing or unclear required views" ::
          (brandAdjust ib st [serialReason st]).2,
        missing_photos := REQUIRED_VIEWS.filter (fun r => !(st.views.contains r)),
        red_flags := (brandAdjust ib st [serialReason st]).1 } := by
  unfold decide_verdict
  dsimp only
  rw [if_neg h]

theorem decide_verdict_of_full_flags (ib : Option String) (st : LoopState)
    (h1 : REQUIRED_VIEWS.filter (fun r => !(st.views.contains r)) = [])
    (h2 : 3 ≤ (brandAdjust ib st [serialReason st]).1.length) :
    decide_verdict ib st =
      { verdict := "Likely Not Authentic", confidence := 65,
        reasons := "Multiple technical inconsistencies detected" ::
          (brandAdjust ib st [serialReason st]).2,
        missing_photos := [],
        red_flags := (brandAdjust ib st [serialReason st]).1 } := by
  unfold decide_verdict
  dsimp only
  rw [if_pos h1, if_pos h2]

theorem decide_verdict_of_full_ok (ib : Option String) (st : LoopState)
    (h1 : REQUIRED_VIEWS.filter (fun r => !(st.views.contains r)) = [])
    (h2 : ¬ 3 ≤ (brandAdjust ib st [serialReason st]).1.length) :
    decide_verdict ib st =
      { verdict := "Likely Authentic", confidence := 75,
        reasons := "All required views present; no universal red flags" ::
          (brandAdjust ib st [serialReason st]).2,
        missing_photos := [],
        red_flags := (brandAdjust ib st [serialReason st]).1 } := by
  unfold decide_verdict
  dsimp only
  rw [if_pos h1, if_neg h2]

theorem brandAdjust_flag_of_no_text (brand : String) (st : LoopState)
    (r : List String) (hclear : st.serialClear = true)
    (hnotext : strTruthy st.normalizedSerial = false)
    (hbr : brand = "louis_vuitton" ∨ brand = "gucci") :
    (brand = "louis_vuitton" →
      "LV serial format inconsistent with known date code structures" ∈
        (brandAdjust (some brand) st r).1) ∧
    (brand = "gucci" →
      "Gucci serial format inconsistent with typical numeric patterns" ∈
        (brandAdjust (some brand) st r).1) := by
  have hserialText :
      (match st.normalizedSerial with
        | some s => if s = "" then "UNKNOWN" else s
        | none => "UNKNOWN") = "UNKNOWN" := by
    cases hn : st.normalizedSerial with
    | none => rfl
    | some s =>
      rw [hn] at hnotext
      simp only [strTruthy, ne_eq, decide_eq_true_eq] at hnotext
      have : s = "" := by
        by_contra hc
        simp [hc] at hnotext
      simp [this]
  rcases hbr with rfl | rfl
  · refine ⟨fun _ => ?_, fun hg => absurd hg (by decide)⟩
    unfold brandAdjust
    dsimp only
    rw [if_pos hclear, hserialText]
    rw [if_pos rfl]
    rw [show checkLVSerialFormat "UNKNOWN" =
      some "LV serial format inconsistent with known date code structures" from by decide]
    exact List.mem_append_right _ (List.mem_singleton.mpr rfl)
  · refine ⟨fun hl => absurd hl (by decide), fun _ => ?_⟩
    unfold brandAdjust
    dsimp only
    rw [if_pos hclear, hserialText]
    rw [if_neg (by decide), if_pos rfl]
    rw [show checkGucciSerialFormat "UNKNOWN" =
      some "Gucci serial format inconsistent with typical numeric patterns" from by decide]
    exact List.mem_append_right _ (List.mem_singleton.mpr rfl)

/-- Claim C1: for every batch in which at least one member of
`REQUIRED_VIEWS` is not in the views-seen set, `buildCoreVerdict` returns
verdict Inconclusive with confidence exactly 30, its `missing_photos`
field is precisely the set of unobserved required views, and its reasons
sequence begins with "Missing or unclear required views". -/
theorem claim_C1_missing_views_inconclusive (ocr : Ocr) (files : List File)
    (labels : List (String × String))
    (h : ∃ r ∈ REQUIRED_VIEWS, r ∉ (runLoop ocr labels files).views) :
    (buildCoreVerdict ocr files labels).verdict = "Inconclusive" ∧
    (buildCoreVerdict ocr files labels).confidence = 30 ∧
    (∀ r, r ∈ (buildCoreVerdict ocr files labels).missing_photos ↔
      (r ∈ REQUIRED_VIEWS ∧ r ∉ (runLoop ocr labels files).views)) ∧
    (buildCoreVerdict ocr files labels).reasons.head? =
      some "Missing or unclear required views" := by
  obtain ⟨r0, hr0, hnr0⟩ := h
  have hne : REQUIRED_VIEWS.filter
      (fun r => !((runLoop ocr labels files).views.contains r)) ≠ [] := by
    intro he
    rw [missing_filter_empty_iff] at he
    exact hnr0 (he r0 hr0)
  unfold buildCoreVerdict
  rw [decide_verdict_of_missing _ _ hne]
  exact ⟨rfl, rfl, fun r => mem_missing_filter _ r, rfl⟩

/-- Witness for C1 at a concrete input: the empty batch misses every
required view and is judged Inconclusive with confidence 30. -/
theorem claim_C1_witness :
    (buildCoreVerdict (fun _ => none) [] []).verdict = "Inconclusive" ∧
    (buildCoreVerdict (fun _ => none) [] []).confidence = 30 :=
  ⟨(claim_C1_missing_views_inconclusive (fun _ => none) [] []
      ⟨"front", by decide, by decide⟩).1,
   (claim_C1_missing_views_inconclusive (fun _ => none) [] []
      ⟨"front", by decide, by decide⟩).2.1⟩

/-- Claim C2: `buildCoreVerdict` returns "Likely Not Authentic" exactly
when view coverage is complete and the red-flag list has length at least
3; in that branch confidence is 65 and the reasons are led by
"Multiple technical inconsistencies detected". -/
theorem claim_C2_not_authentic_iff (ocr : Ocr) (files : List File)
    (labels : List (String × String)) :
    ((buildCoreVerdict ocr files labels).verdict = "Likely Not Authentic" ↔
      ((∀ r ∈ REQUIRED_VIEWS, r ∈ (runLoop ocr labels files).views) ∧
        3 ≤ (buildCoreVerdict ocr files labels).red_flags.length)) ∧
    ((buildCoreVerdict ocr files labels).verdict = "Likely Not Authentic" →
      (buildCoreVerdict ocr files labels).confidence = 65 ∧
      (buildCoreVerdict ocr files labels).reasons.head? =
        some "Multiple technical inconsistencies detected") := by
  unfold buildCoreVerdict
  by_cases hm : REQUIRED_VIEWS.filter
      (fun r => !((runLoop ocr labels files).views.contains r)) = []
  · by_cases hf : 3 ≤ (brandAdjust (inferBrand files) (runLoop ocr labels files)
        [serialReason (runLoop ocr labels files)]).1.length
    · rw [decide_verdict_of_full_flags _ _ hm hf]
      refine ⟨⟨fun _ => ⟨(missing_filter_empty_iff _).mp hm, hf⟩, fun _ => rfl⟩,
        fun _ => ⟨rfl, rfl⟩⟩
    · rw [decide_verdict_of_full_ok _ _ hm hf]
      refine ⟨⟨fun hv => absurd (show ("Likely Authentic" : String) =
          "Likely Not Authentic" from hv) (by decide), ?_⟩,
        fun hv => absurd (show ("Likely Authentic" : String) =
          "Likely Not Authentic" from hv) (by decide)⟩
      rintro ⟨_, hlen⟩
      exact absurd hlen hf
  · rw [decide_verdict_of_missing _ _ hm]
    refine ⟨⟨fun hv => absurd (show ("Inconclusive" : String) =
        "Likely Not Authentic" from hv) (by decide), ?_⟩,
      fun hv => absurd (show ("Inconclusive" : String) =
        "Likely Not Authentic" from hv) (by decide)⟩
    rintro ⟨hcov, _⟩
    exact absurd ((missing_filter_empty_iff _).mpr hcov) hm

/-- Claim C3: for every batch with complete coverage and fewer than 3 red
flags, `buildCoreVerdict` returns "Likely Authentic" with confidence 75,
reasons led by "All required views present; no universal red flags" and
empty `missing_photos`; and no branch beyond the three fixed verdicts
exists at all. -/
theorem claim_C3_authentic_default (ocr : Ocr) (files : List File)
    (labels : List (String × String))
    (hcov : ∀ r ∈ REQUIRED_VIEWS, r ∈ (runLoop ocr labels files).views)
    (hfl : (buildCoreVerdict ocr files labels).red_flags.length < 3) :
    (buildCoreVerdict ocr files labels).verdict = "Likely Authentic" ∧
    (buildCoreVerdict ocr files labels).confidence = 75 ∧
    (buildCoreVerdict ocr files labels).reasons.head? =
      some "All required views present; no universal red flags" ∧
    (buildCoreVerdict ocr files labels).missing_photos = [] ∧
    (∀ (ocr2 : Ocr) (files2 : List File) (labels2 : List (String × String)),
      (buildCoreVerdict ocr2 files2 labels2).verdict ∈
        (["Inconclusive", "Likely Not Authentic", "Likely Authentic"] : List String)) := by
  have hm : REQUIRED_VIEWS.filter
      (fun r => !((runLoop ocr labels files).views.contains r)) = [] :=
    (missing_filter_empty_iff _).mpr hcov
  have hfl2 : ¬ 3 ≤ (brandAdjust (inferBrand files) (runLoop ocr labels files)
      [serialReason (runLoop ocr labels files)]).1.length := by
    intro hc
    apply Nat.not_le.mpr hfl
    have := decide_verdict_red_flags (inferBrand files) (runLoop ocr labels files)
    unfold buildCoreVerdict
    rw [this]
    exact hc
  unfold buildCoreVerdict
  rw [decide_verdict_of_full_ok _ _ hm hfl2]
  exact ⟨rfl, rfl, rfl, rfl,
    fun ocr2 files2 labels2 => decide_verdict_verdict_mem _ _⟩

theorem string_append_left_cancel (p a b : String) (h : p ++ a = p ++ b) :
    a = b := by
  have hd := congrArg String.data h
  rw [String.data_append, String.data_append] at hd
  exact String.ext (List.append_cancel_left hd)

theorem mem_flags_of_loop (ib : Option String) (st : LoopState)
    (r : List String) (x : String) (hx : x ∈ st.red_flags) :
    x ∈ (brandAdjust ib st r).1 := by
  rcases brandAdjust_flags_cases ib st r with h | h | h <;> rw [h]
  · exact hx
  · exact List.mem_append_left _ hx
  · exact List.mem_append_left _ hx

theorem flags_member_cases (ib : Option String) (st : LoopState)
    (r : List String) (x : String) (hx : x ∈ (brandAdjust ib st r).1) :
    x ∈ st.red_flags ∨
      x = "LV serial format inconsistent with known date code structures" ∨
      x = "Gucci serial format inconsistent with typical numeric patterns" := by
  rcases brandAdjust_flags_cases ib st r with h | h | h <;> rw [h] at hx
  · exact Or.inl hx
  · rcases List.mem_append.mp hx with h2 | h2
    · exact Or.inl h2
    · exact Or.inr (Or.inl (List.mem_singleton.mp h2))
  · rcases List.mem_append.mp hx with h2 | h2
    · exact Or.inl h2
    · exact Or.inr (Or.inr (List.mem_singleton.mp h2))

/-- Claim C4: an explicit caller label that is a member of the view
enumeration is used unchanged for its filename, overriding any keyword
classification; a label outside the enumeration is silently dropped and
classification falls back to the keyword table. -/
theorem claim_C4_explicit_labels (raw : List (String × String))
    (fname v : String) (hnd : (raw.map Prod.fst).Nodup)
    (hb : raw.lookup fname = some v) :
    (v ∈ ALLOWED_VIEWS → assignView (parseLabels raw) fname = some v) ∧
    (v ∉ ALLOWED_VIEWS → assignView (parseLabels raw) fname = classifyView fname) := by
  have hl := lookup_parseLabels raw fname v hnd hb
  constructor
  · intro hv
    have hc : ALLOWED_VIEWS.contains v = true := List.elem_iff.mpr hv
    rw [if_pos hc] at hl
    unfold assignView
    rw [hl]
    have hne : v ≠ "" := by
      intro he
      subst he
      exact absurd hv (by decide)
    dsimp only
    rw [if_neg hne]
  · intro hv
    have hc : ALLOWED_VIEWS.contains v = false := by
      cases hcc : ALLOWED_VIEWS.contains v with
      | true => exact absurd (List.elem_iff.mp hcc) hv
      | false => rfl
    rw [if_neg (by rw [hc]; exact Bool.false_ne_true)] at hl
    unfold assignView
    rw [hl]

/-- Witness for C4 at a concrete input: the valid label `front` for
`img1.jpg` wins although the filename has no keyword, and the invalid
label `selfie` for `weird.jpg` is dropped in favour of the keyword
table. -/
theorem claim_C4_witness :
    assignView (parseLabels [("img1.jpg", "front"), ("weird.jpg", "selfie")])
        "img1.jpg" = some "front" ∧
    assignView (parseLabels [("img1.jpg", "front"), ("weird.jpg", "selfie")])
        "weird.jpg" = classifyView "weird.jpg" :=
  ⟨(claim_C4_explicit_labels [("img1.jpg", "front"), ("weird.jpg", "selfie")]
      "img1.jpg" "front" (by decide) (by decide)).1 (by decide),
   (claim_C4_explicit_labels [("img1.jpg", "front"), ("weird.jpg", "selfie")]
      "weird.jpg" "selfie" (by decide) (by decide)).2 (by decide)⟩

/-- Claim C5: the 60,000-byte threshold is strict: every image under
60,000 bytes contributes the red flag "Low-quality image: <filename>"
and never reaches the views-seen set, while images of 60,000 bytes or
more are exactly the ones whose assigned view counts toward coverage;
moreover every low-quality flag in the result comes from an undersized
file of the batch. -/
theorem claim_C5_quality_threshold (ocr : Ocr) (files : List File)
    (labels : List (String × String)) :
    (∀ f ∈ files, f.size < 60000 →
      ("Low-quality image: " ++ f.originalname) ∈
        (buildCoreVerdict ocr files labels).red_flags) ∧
    (∀ v, v ∈ (runLoop ocr labels files).views ↔
      ∃ f ∈ files, ¬ f.size < 60000 ∧ assignView labels f.originalname = some v) ∧
    (∀ name, ("Low-quality image: " ++ name) ∈
        (buildCoreVerdict ocr files labels).red_flags →
      ∃ f ∈ files, f.size < 60000 ∧ f.originalname = name) := by
  refine ⟨?_, fun v => runLoop_views_mem ocr labels files v, ?_⟩
  · intro f hf hsz
    unfold buildCoreVerdict
    rw [decide_verdict_red_flags]
    apply mem_flags_of_loop
    rw [runLoop_red_flags]
    exact List.mem_map.mpr ⟨f, List.mem_filter.mpr ⟨hf, by simp [hsz]⟩, rfl⟩
  · intro name hmem
    unfold buildCoreVerdict at hmem
    rw [decide_verdict_red_flags] at hmem
    rcases flags_member_cases _ _ _ _ hmem with h | h | h
    · rw [runLoop_red_flags] at h
      rcases List.mem_map.mp h with ⟨f, hf, heq⟩
      have hf2 := List.mem_filter.mp hf
      exact ⟨f, hf2.1, by simpa using hf2.2,
        string_append_left_cancel "Low-quality image: " _ _ heq⟩
    · exact absurd h (append_prefix_ne "Low-quality image: " name
        "LV serial format inconsistent with known date code structures"
        (by decide) (by decide))
    · exact absurd h (append_prefix_ne "Low-quality image: " name
        "Gucci serial format inconsistent with typical numeric patterns"
        (by decide) (by decide))

/-- Witness for C5 at the exact boundary: a 59,999-byte file is flagged,
a 60,000-byte front view is counted toward coverage. -/
theorem claim_C5_witness :
    ("Low-quality image: " ++ "x.bin") ∈
      (buildCoreVerdict (fun _ => none)
        [⟨"x.bin", 59999, []⟩, ⟨"front.jpg", 60000, []⟩] []).red_flags ∧
    "front" ∈ (runLoop (fun _ => none) []
      [⟨"x.bin", 59999, []⟩, ⟨"front.jpg", 60000, []⟩]).views :=
  ⟨(claim_C5_quality_threshold (fun _ => none)
      [⟨"x.bin", 59999, []⟩, ⟨"front.jpg", 60000, []⟩] []).1
      ⟨"x.bin", 59999, []⟩ (by decide) (by decide),
   ((claim_C5_quality_threshold (fun _ => none)
      [⟨"x.bin", 59999, []⟩, ⟨"front.jpg", 60000, []⟩] []).2.1 "front").mpr
      ⟨⟨"front.jpg", 60000, []⟩, by decide, by decide, by decide⟩⟩

/-- Claim C6: `inferBrand` returns the brand with the highest hit count
only when that count is at least 2 and otherwise unknown; in particular
a single "lv_front.jpg" among nine hint-free filenames yields no brand. -/
theorem claim_C6_brand_threshold (files : List File) :
    (∀ b, inferBrand files = some b →
      2 ≤ brandHits files b ∧ ∀ c, brandHits files c ≤ brandHits files b) ∧
    ((∀ c, brandHits files c ≤ 1) → inferBrand files = none) ∧
    inferBrand
      [⟨"lv_front.jpg", 200000, []⟩, ⟨"back.jpg", 200000, []⟩,
       ⟨"side.jpg", 200000, []⟩, ⟨"bottom.jpg", 200000, []⟩,
       ⟨"top.jpg", 200000, []⟩, ⟨"interior.jpg", 200000, []⟩,
       ⟨"stamp.jpg", 200000, []⟩, ⟨"zipper.jpg", 200000, []⟩,
       ⟨"handle.jpg", 200000, []⟩, ⟨"stitch.jpg", 200000, []⟩] = none := by
  refine ⟨?_, ?_, by decide⟩
  · intro b hib
    unfold inferBrand at hib
    cases hsort : sortDesc (tallyBrands files) with
    | nil =>
      rw [hsort] at hib
      cases hib
    | cons e rest =>
      rw [hsort] at hib
      dsimp only at hib
      split at hib
      · next h2 =>
        injection hib with hb
        subst hb
        have hcnt : e.2 = brandHits files e.1 :=
          tally_entry_count files e (sorted_head_mem files e rest hsort)
        refine ⟨by rw [← hcnt]; exact h2, fun c => ?_⟩
        have := sorted_head_max files e rest hsort c
        rw [← hcnt]
        exact this
      · cases hib
  · intro hall
    unfold inferBrand
    cases hsort : sortDesc (tallyBrands files) with
    | nil => rfl
    | cons e rest =>
      dsimp only
      have hcnt : e.2 = brandHits files e.1 :=
        tally_entry_count files e (sorted_head_mem files e rest hsort)
      rw [if_neg (by rw [hcnt]; have := hall e.1; omega)]

/-- Witness for C6 at a concrete input: two corroborating LV filenames
give the brand a hit count of at least 2 that dominates every other. -/
theorem claim_C6_witness :
    2 ≤ brandHits [⟨"lv_a.jpg", 1, []⟩, ⟨"lv_b.jpg", 1, []⟩] "louis_vuitton" ∧
    brandHits [⟨"lv_a.jpg", 1, []⟩, ⟨"lv_b.jpg", 1, []⟩] "gucci" ≤
      brandHits [⟨"lv_a.jpg", 1, []⟩, ⟨"lv_b.jpg", 1, []⟩] "louis_vuitton" := by
  have h := (claim_C6_brand_threshold
    [⟨"lv_a.jpg", 1, []⟩, ⟨"lv_b.jpg", 1, []⟩]).1 "louis_vuitton" (by decide)
  exact ⟨h.1, h.2 "gucci"⟩

/-- Counterexample to C7 as stated: when the OCR capability returns no
text, a batch with two clear serial-bearing images triggers two OCR
invocations, so "at most once per request" fails on the code. -/
theorem claim_C7_counterexample :
    ¬ ((runLoop (fun _ => none) []
        [⟨"stamp1.jpg", 100000, []⟩, ⟨"stamp2.jpg", 100000, []⟩]).ocrCalls.length ≤ 1) := by
  decide

/-- Claim C7 amended: OCR is attempted only for batch-order images that
pass the quality gate with a clear serial-bearing view, and stops as soon
as one call returns text; when the capability returns text on every call,
at most one call is made, on the first clear candidate. -/
theorem claim_C7_amended (ocr : Ocr) (labels : List (String × String))
    (files : List File) :
    (∀ f ∈ (runLoop ocr labels files).ocrCalls, ocrCandidate labels f = true) ∧
    ((∀ f ∈ files, strTruthy (ocr f.buffer) = true) →
      (runLoop ocr labels files).ocrCalls = (files.find? (ocrCandidate labels)).toList ∧
      (runLoop ocr labels files).ocrCalls.length ≤ 1) := by
  constructor
  · intro f hf
    rcases foldl_ocrCalls_sub ocr labels files initState f hf with h | h
    · exact absurd h (List.not_mem_nil f)
    · exact h.2
  · intro hall
    have h := foldl_ocrCalls_truthy_ocr ocr labels files initState hall rfl
    refine ⟨h, ?_⟩
    rw [runLoop, h]
    cases files.find? (ocrCandidate labels) <;> simp [initState]

/-- Witness for C7 amended at a concrete input: with an OCR capability
that always returns text, the two-stamp batch performs exactly one call. -/
theorem claim_C7_witness :
    (runLoop (fun _ => some "AB1234") []
      [⟨"stamp1.jpg", 100000, []⟩, ⟨"stamp2.jpg", 100000, []⟩]).ocrCalls.length ≤ 1 :=
  ((claim_C7_amended (fun _ => some "AB1234") []
      [⟨"stamp1.jpg", 100000, []⟩, ⟨"stamp2.jpg", 100000, []⟩]).2 (by decide)).2

/-- Counterexample to C8 as stated: a 70,000-byte serial-bearing image is
present and not clear, yet the result records no "unclear" red flag. -/
theorem claim_C8_counterexample :
    (assessSerialImage (some ⟨"stamp.jpg", 70000, []⟩)).present = true ∧
    (assessSerialImage (some ⟨"stamp.jpg", 70000, []⟩)).clear = false ∧
    ("Serial/date code image present but unclear: " ++ "stamp.jpg") ∉
      (buildCoreVerdict (fun _ => none) [⟨"stamp.jpg", 70000, []⟩] []).red_flags := by
  decide

/-- Claim C8 amended: `assessSerialImage` marks any serial-bearing image
present unconditionally and clear exactly when its byte size is at least
80,000, but the engine never records a "Serial/date code image present
but unclear" red flag: the unclear case surfaces only through the reason
string. -/
theorem claim_C8_amended (ocr : Ocr) (files : List File)
    (labels : List (String × String)) (f : File) :
    (assessSerialImage (some f)).present = true ∧
    ((assessSerialImage (some f)).clear = true ↔ 80000 ≤ f.size) ∧
    (∀ name, ("Serial/date code image present but unclear: " ++ name) ∉
      (buildCoreVerdict ocr files labels).red_flags) := by
  refine ⟨?_, ?_, ?_⟩
  · by_cases h : f.size < 80000 <;> simp [assessSerialImage, h]
  · rw [assessSerialImage_clear]
    simp
  · intro name hmem
    unfold buildCoreVerdict at hmem
    rw [decide_verdict_red_flags] at hmem
    rcases flags_member_cases _ _ _ _ hmem with h | h | h
    · rw [runLoop_red_flags] at h
      rcases List.mem_map.mp h with ⟨g, _, heq⟩
      exact append_prefix_ne2 "Low-quality image: " g.originalname
        "Serial/date code image present but unclear: " name
        (by decide) (by decide) (by decide) heq
    · exact append_prefix_ne "Serial/date code image present but unclear: " name
        "LV serial format inconsistent with known date code structures"
        (by decide) (by decide) h
    · exact append_prefix_ne "Serial/date code image present but unclear: " name
        "Gucci serial format inconsistent with typical numeric patterns"
        (by decide) (by decide) h

/-- Witness for C8 amended at a concrete input: a clear 100,000-byte
stamp image, and no "unclear" flag on the empty batch. -/
theorem claim_C8_witness :
    (assessSerialImage (some ⟨"stamp.jpg", 100000, []⟩)).present = true ∧
    (assessSerialImage (some ⟨"stamp.jpg", 100000, []⟩)).clear = true ∧
    ("Serial/date code image present but unclear: " ++ "x.jpg") ∉
      (buildCoreVerdict (fun _ => none) [] []).red_flags :=
  ⟨(claim_C8_amended (fun _ => none) [] [] ⟨"stamp.jpg", 100000, []⟩).1,
   ((claim_C8_amended (fun _ => none) [] [] ⟨"stamp.jpg", 100000, []⟩).2.1).mpr
     (by decide),
   (claim_C8_amended (fun _ => none) [] [] ⟨"stamp.jpg", 100000, []⟩).2.2 "x.jpg"⟩

/-- Claim C9: every request to the verify endpoint resolves to a
well-formed `VerdictResult` and never propagates an exception: the
verdict is one of the three fixed strings, confidence stays within 0-100,
and an unexpected internal failure maps to Inconclusive, confidence 0,
the single reason "Server error during verification", and empty
`missing_photos` and `red_flags`. -/
theorem claim_C9_error_boundary (ocr : Ocr)
    (req : Except Unit (List File × List (String × String))) :
    (verifyRoute ocr req).verdict ∈
      (["Inconclusive", "Likely Not Authentic", "Likely Authentic"] : List String) ∧
    (verifyRoute ocr req).confidence ≤ 100 ∧
    (∀ e, req = Except.error e →
      verifyRoute ocr req =
        { verdict := "Inconclusive", confidence := 0,
          reasons := ["Server error during verification"],
          missing_photos := [], red_flags := [] }) := by
  refine ⟨?_, ?_, ?_⟩
  · cases req with
    | error e => simp [verifyRoute, serverErrorResult]
    | ok p =>
      obtain ⟨fs, ls⟩ := p
      unfold verifyRoute buildCoreVerdict
      exact decide_verdict_verdict_mem _ _
  · cases req with
    | error e => simp [verifyRoute, serverErrorResult]
    | ok p =>
      obtain ⟨fs, ls⟩ := p
      unfold verifyRoute buildCoreVerdict
      have hmem := decide_verdict_confidence_mem (inferBrand fs)
        (runLoop ocr (parseLabels ls) fs)
      simp only [List.mem_cons, List.mem_singleton, List.not_mem_nil,
        or_false] at hmem
      rcases hmem with h | h | h <;> rw [h] <;> omega
  · intro e he
    subst he
    rfl

/-- Witness for C9 at a concrete input: an internal failure is mapped to
the fixed server-error result. -/
theorem claim_C9_witness :
    verifyRoute (fun _ => none) (Except.error ()) =
      { verdict := "Inconclusive", confidence := 0,
        reasons := ["Server error during verification"],
        missing_photos := [], red_flags := [] } :=
  (claim_C9_error_boundary (fun _ => none) (Except.error ())).2.2 () rfl

/-- Claim C10: when the inferred brand is louis_vuitton or gucci and a
clear serial-bearing image was observed but OCR produced no text, the
serial-format check runs against the placeholder "UNKNOWN", which matches
neither brand pattern, so the brand-specific red flag is recorded. -/
theorem claim_C10_unknown_placeholder (ocr : Ocr) (files : List File)
    (labels : List (String × String))
    (hclear : (runLoop ocr labels files).serialClear = true)
    (hnotext : strTruthy (runLoop ocr labels files).normalizedSerial = false) :
    (inferBrand files = some "louis_vuitton" →
      "LV serial format inconsistent with known date code structures" ∈
        (buildCoreVerdict ocr files labels).red_flags) ∧
    (inferBrand files = some "gucci" →
      "Gucci serial format inconsistent with typical numeric patterns" ∈
        (buildCoreVerdict ocr files labels).red_flags) := by
  constructor
  · intro hb
    unfold buildCoreVerdict
    rw [decide_verdict_red_flags, hb]
    exact (brandAdjust_flag_of_no_text "louis_vuitton" _ _ hclear hnotext
      (Or.inl rfl)).1 rfl
  · intro hb
    unfold buildCoreVerdict
    rw [decide_verdict_red_flags, hb]
    exact (brandAdjust_flag_of_no_text "gucci" _ _ hclear hnotext
      (Or.inr rfl)).2 rfl

/-- Witness for C10 at a concrete input: two LV-hinted files with a clear
stamp image and an OCR capability returning no text produce the LV
serial-format red flag. -/
theorem claim_C10_witness :
    "LV serial format inconsistent with known date code structures" ∈
      (buildCoreVerdict (fun _ => none)
        [⟨"lv_stamp.jpg", 100000, []⟩, ⟨"lv_front.jpg", 100000, []⟩] []).red_flags :=
  (claim_C10_unknown_placeholder (fun _ => none)
    [⟨"lv_stamp.jpg", 100000, []⟩, ⟨"lv_front.jpg", 100000, []⟩] []
    (by decide) (by decide)).1 (by decide)

/-- Witness for C2 at a concrete input: full coverage plus three
undersized uploads yields "Likely Not Authentic" with confidence 65. -/
theorem claim_C2_witness :
    (buildCoreVerdict (fun _ => none)
      [⟨"front.jpg", 200000, []⟩, ⟨"back.jpg", 200000, []⟩,
       ⟨"side.jpg", 200000, []⟩, ⟨"bottom.jpg", 200000, []⟩,
       ⟨"top.jpg", 200000, []⟩, ⟨"interior.jpg", 200000, []⟩,
       ⟨"stamp.jpg", 200000, []⟩, ⟨"zipper.jpg", 200000, []⟩,
       ⟨"handle.jpg", 200000, []⟩, ⟨"stitch.jpg", 200000, []⟩,
       ⟨"t1.bin", 500, []⟩, ⟨"t2.bin", 500, []⟩, ⟨"t3.bin", 500, []⟩]
      []).verdict = "Likely Not Authentic" ∧
    (buildCoreVerdict (fun _ => none)
      [⟨"front.jpg", 200000, []⟩, ⟨"back.jpg", 200000, []⟩,
       ⟨"side.jpg", 200000, []⟩, ⟨"bottom.jpg", 200000, []⟩,
       ⟨"top.jpg", 200000, []⟩, ⟨"interior.jpg", 200000, []⟩,
       ⟨"stamp.jpg", 200000, []⟩, ⟨"zipper.jpg", 200000, []⟩,
       ⟨"handle.jpg", 200000, []⟩, ⟨"stitch.jpg", 200000, []⟩,
       ⟨"t1.bin", 500, []⟩, ⟨"t2.bin", 500, []⟩, ⟨"t3.bin", 500, []⟩]
      []).confidence = 65 := by
  have hv := (claim_C2_not_authentic_iff (fun _ => none)
    [⟨"front.jpg", 200000, []⟩, ⟨"back.jpg", 200000, []⟩,
     ⟨"side.jpg", 200000, []⟩, ⟨"bottom.jpg", 200000, []⟩,
     ⟨"top.jpg", 200000, []⟩, ⟨"interior.jpg", 200000, []⟩,
     ⟨"stamp.jpg", 200000, []⟩, ⟨"zipper.jpg", 200000, []⟩,
     ⟨"handle.jpg", 200000, []⟩, ⟨"stitch.jpg", 200000, []⟩,
     ⟨"t1.bin", 500, []⟩, ⟨"t2.bin", 500, []⟩, ⟨"t3.bin", 500, []⟩] [])
  exact ⟨hv.1.mpr ⟨by decide, by decide⟩,
    (hv.2 (hv.1.mpr ⟨by decide, by decide⟩)).1⟩

/-- Witness for C3 at a concrete input: ten good files covering every
required view with no red flags are judged "Likely Authentic" at 75. -/
theorem claim_C3_witness :
    (buildCoreVerdict (fun _ => none)
      [⟨"front.jpg", 200000, []⟩, ⟨"back.jpg", 200000, []⟩,
       ⟨"side.jpg", 200000, []⟩, ⟨"bottom.jpg", 200000, []⟩,
       ⟨"top.jpg", 200000, []⟩, ⟨"interior.jpg", 200000, []⟩,
       ⟨"stamp.jpg", 200000, []⟩, ⟨"zipper.jpg", 200000, []⟩,
       ⟨"handle.jpg", 200000, []⟩, ⟨"stitch.jpg", 200000, []⟩]
      []).verdict = "Likely Authentic" ∧
    (buildCoreVerdict (fun _ => none)
      [⟨"front.jpg", 200000, []⟩, ⟨"back.jpg", 200000, []⟩,
       ⟨"side.jpg", 200000, []⟩, ⟨"bottom.jpg", 200000, []⟩,
       ⟨"top.jpg", 200000, []⟩, ⟨"interior.jpg", 200000, []⟩,
       ⟨"stamp.jpg", 200000, []⟩, ⟨"zipper.jpg", 200000, []⟩,
       ⟨"handle.jpg", 200000, []⟩, ⟨"stitch.jpg", 200000, []⟩]
      []).confidence = 75 := by
  have h := claim_C3_authentic_default (fun _ => none)
    [⟨"front.jpg", 200000, []⟩, ⟨"back.jpg", 200000, []⟩,
     ⟨"side.jpg", 200000, []⟩, ⟨"bottom.jpg", 200000, []⟩,
     ⟨"top.jpg", 200000, []⟩, ⟨"interior.jpg", 200000, []⟩,
     ⟨"stamp.jpg", 200000, []⟩, ⟨"zipper.jpg", 200000, []⟩,
     ⟨"handle.jpg", 200000, []⟩, ⟨"stitch.jpg", 200000, []⟩]
    [] (by decide) (by decide)
  exact ⟨h.1, h.2.1⟩

end TRC
